import Mathlib

/-!
Verification of the BeanScript interpreter core.

This file gives a shallow embedding of the data model and operations of the
BeanScript interpreter (instruction records, the instruction table, the
timestamp min-heap, the routine and waitlist schedulers, and the runtime
preparation pass), translated from the C sources, together with theorems
settling the specification claims about them.

Modelling conventions:
* C strings are Lean `String`s; the uthash maps are association lists
  (`List Instruction`) looked up by id, reflecting id-keyed access.
* `time_t` values are `Int`.
* Functions that can trip a fatal `assert` in C return `Option`, with `none`
  for the aborting branch.
* The external time source `get_current_time()` is passed in as a `now`
  parameter.
-/

namespace BeanScript

/-- Instruction kinds, from the `InstructionType` enum in `instruction.h`. -/
inductive InstructionType where
  | KEY | PRESS | HOLD | RELEASE | START | STOP
  | SCRIPT | WINDOW | WAITLIST | ROUTINE | RANDOM | GROUP | NONE
deriving DecidableEq

/-- Parameter names, from the `InstructionParameter` enum in `instruction.h`. -/
inductive InstructionParameter where
  | DURATION | BEFORE | AFTER | REPEAT | COOLDOWN
deriving DecidableEq

/-- Index of a parameter in the flat `parameters` array (the enum value). -/
def InstructionParameter.idx : InstructionParameter → Nat
  | .DURATION => 0
  | .BEFORE => 1
  | .AFTER => 2
  | .REPEAT => 3
  | .COOLDOWN => 4

/-- The instruction record (`struct InstructionStruct` in `instruction.c`).
`parameters` is the flat array of `[lo, hi]` pairs indexed by
`2 * parameter (+ 1)`, as in the C source. -/
structure Instruction where
  id : String
  indent_count : Nat
  keycode : Nat
  parameters : List Int
  type : InstructionType
  sub_instructions : List String
  line_number : Int
deriving DecidableEq

/-- Default parameter array (`InstructionParameterDefaultValues`):
duration [50,70], before [0,0], after [30,50], repeat [0,0], cooldown [0,0]. -/
def InstructionParameterDefaultValues : List Int :=
  [50, 70, 0, 0, 30, 50, 0, 0, 0, 0]

/-- `instruction_new()`: default-constructed instruction. -/
def instruction_new : Instruction :=
  { id := ""
    indent_count := 0
    keycode := 0
    parameters := InstructionParameterDefaultValues
    type := .NONE
    sub_instructions := []
    line_number := -1 }

/-- `instruction_get_parameter_lower_value`: `parameters[2 * parameter]`. -/
def instruction_get_parameter_lower_value (i : Instruction) (p : InstructionParameter) : Int :=
  i.parameters.getD (2 * p.idx) 0

/-- `instruction_get_parameter_upper_value`: `parameters[2 * parameter + 1]`. -/
def instruction_get_parameter_upper_value (i : Instruction) (p : InstructionParameter) : Int :=
  i.parameters.getD (2 * p.idx + 1) 0

/-- `instruction_type_is_definition` from `instruction.c`: the switch lists
`KEY`, `SCRIPT`, `WINDOW`, `WAITLIST`, `ROUTINE`, `GROUP`. -/
def instruction_type_is_definition (t : InstructionType) : Bool :=
  match t with
  | .KEY | .SCRIPT | .WINDOW | .WAITLIST | .ROUTINE | .GROUP => true
  | _ => false

/-- `instruction_can_define_inplace`: `PRESS`, `RELEASE`, `HOLD`. -/
def instruction_can_define_inplace (t : InstructionType) : Bool :=
  t = .PRESS || t = .RELEASE || t = .HOLD

/-- `instruction_type_is_transaction`: the switch lists `PRESS`, `HOLD`,
`RELEASE`, `START`, `STOP`. -/
def instruction_type_is_transaction (t : InstructionType) : Bool :=
  match t with
  | .PRESS | .HOLD | .RELEASE | .START | .STOP => true
  | _ => false

/-- `instruction_type_is_scheduler`: `ROUTINE`, `WAITLIST`, `RANDOM`. -/
def instruction_type_is_scheduler (t : InstructionType) : Bool :=
  t = .ROUTINE || t = .WAITLIST || t = .RANDOM

/-- `instruction_add_sub_instruction`: append the id to `sub_instructions`. -/
def instruction_add_sub_instruction (i : Instruction) (sid : String) : Instruction :=
  { i with sub_instructions := i.sub_instructions ++ [sid] }

/-- `instruction_get_num_sub_instructions`: fatally asserts the instruction
is of type `GROUP`, then returns the sub-instruction count. -/
def instruction_get_num_sub_instructions (i : Instruction) : Option Nat :=
  if i.type = .GROUP then some i.sub_instructions.length else none

/-- `instruction_get_sub_instruction_by_index`: fatally asserts the
instruction is of type `GROUP` and the index in range, then returns the
sub-instruction id at that index. -/
def instruction_get_sub_instruction_by_index (i : Instruction) (index : Nat) :
    Option String :=
  if i.type = .GROUP then i.sub_instructions.get? index else none

/-- `instruction_execute` from `instruction.c`: asserts the type is not
`NONE` and then returns `false` unconditionally. -/
def instruction_execute (i : Instruction) : Option Bool :=
  if i.type = .NONE then none else some false

/-- The instruction map (uthash table keyed by id), as an association list. -/
abbrev InstructionMap := List Instruction

/-- `instruction_map_get`: lookup by id, `none` when absent. -/
def instruction_map_get (m : InstructionMap) (id : String) : Option Instruction :=
  m.find? (fun i => i.id = id)

/-- `instruction_map_insert`: fatal (`none`) when an instruction with the
same id already exists, otherwise adds the instruction to the table. -/
def instruction_map_insert (m : InstructionMap) (i : Instruction) : Option InstructionMap :=
  match instruction_map_get m i.id with
  | some _ => none
  | none => some (m ++ [i])

/-! ## Timestamp min-heap (`str_timestamp_queue.c`) -/

/-- A heap node (`TimestampNode`): a `time_t` timestamp and a string value. -/
structure TimestampNode where
  timestamp : Int
  value : String
deriving DecidableEq

instance : Inhabited TimestampNode := ⟨⟨0, ""⟩⟩

/-- The queue (`TimestampQueueStruct`): `nodes` is the occupied prefix of the
backing array, so `size` is `nodes.length` and `capacity` bounds it. -/
structure TimestampQueue where
  capacity : Nat
  nodes : List TimestampNode
deriving DecidableEq

/-- Timestamp stored at index `i` of the node array (`nodes[i]->timestamp`). -/
def tsAt (l : List TimestampNode) (i : Nat) : Int :=
  (l.getD i default).timestamp

/-- `swap`: exchange the nodes at two indices. -/
def swapNodes (l : List TimestampNode) (i j : Nat) : List TimestampNode :=
  (l.set i (l.getD j default)).set j (l.getD i default)

/-- The value of `min_idx` in `bubble_down` after the left-child
comparison. -/
def heapMin1 (l : List TimestampNode) (k : Nat) : Nat :=
  if tsAt l (2 * k + 1) < tsAt l k then 2 * k + 1 else k

/-- Index of the smallest of `current_idx` and its in-range children, as
computed by the body of `bubble_down` (`min_idx` after both comparisons). -/
def heapMinIdx (l : List TimestampNode) (k : Nat) : Nat :=
  if 2 * k + 2 < l.length ∧ tsAt l (2 * k + 2) < tsAt l (heapMin1 l k) then 2 * k + 2
  else heapMin1 l k

/-- `bubble_down` from `str_timestamp_queue.c` (the `size` argument of the C
function is always the queue size, i.e. `l.length` here). -/
def bubble_down (l : List TimestampNode) (current_idx : Nat) : List TimestampNode :=
  if 2 * current_idx + 1 ≥ l.length then l
  else if heapMinIdx l current_idx = current_idx then l
  else bubble_down (swapNodes l current_idx (heapMinIdx l current_idx)) (heapMinIdx l current_idx)
termination_by l.length - current_idx
decreasing_by
  have hc : heapMinIdx l current_idx = current_idx ∨
      heapMinIdx l current_idx = 2 * current_idx + 1 ∨
      heapMinIdx l current_idx = 2 * current_idx + 2 := by
    unfold heapMinIdx heapMin1
    split_ifs <;> simp
  rcases hc with hc | hc | hc <;>
    simp only [swapNodes, List.length_set] <;> omega

/-- `bubble_up` from `str_timestamp_queue.c` (the unused `size` argument of
the C function is dropped). -/
def bubble_up (l : List TimestampNode) (current_idx : Nat) : List TimestampNode :=
  if current_idx = 0 then l
  else if tsAt l current_idx < tsAt l ((current_idx - 1) / 2) then
    bubble_up (swapNodes l current_idx ((current_idx - 1) / 2)) ((current_idx - 1) / 2)
  else l
termination_by current_idx
decreasing_by omega

/-- `str_timestamp_queue_new`: empty queue with the given capacity. -/
def str_timestamp_queue_new (capacity : Nat) : TimestampQueue :=
  { capacity := capacity, nodes := [] }

/-- `str_timestamp_queue_get_size`. -/
def str_timestamp_queue_get_size (q : TimestampQueue) : Nat :=
  q.nodes.length

/-- `str_timestamp_queue_contains`. -/
def str_timestamp_queue_contains (q : TimestampQueue) (v : String) : Bool :=
  q.nodes.any (fun n => n.value = v)

/-- `str_timestamp_queue_peek_value`: asserts non-emptiness, then returns
the value at the root. -/
def str_timestamp_queue_peek_value (q : TimestampQueue) : Option String :=
  q.nodes.head?.map (·.value)

/-- `str_timestamp_queue_can_pop` exactly as in the source: `false` when
empty, else `current_timestamp <= min_node->timestamp` where the current
timestamp is the `now` parameter. -/
def str_timestamp_queue_can_pop (now : Int) (q : TimestampQueue) : Bool :=
  match q.nodes with
  | [] => false
  | min_node :: _ => now ≤ min_node.timestamp

/-- `str_timestamp_queue_pop`: asserts non-emptiness, re-keys the root node
to `updated_timestamp` in place, bubbles down from the root, and returns the
previous root value. -/
def str_timestamp_queue_pop (q : TimestampQueue) (updated_timestamp : Int) :
    Option (String × TimestampQueue) :=
  match q.nodes with
  | [] => none
  | min_node :: rest =>
      some (min_node.value,
        { q with nodes := bubble_down (⟨updated_timestamp, min_node.value⟩ :: rest) 0 })

/-- `str_timestamp_queue_push`: asserts the queue is below capacity, places
the new node in the next free slot and bubbles it up. -/
def str_timestamp_queue_push (q : TimestampQueue) (timestamp : Int) (value : String) :
    Option TimestampQueue :=
  if q.nodes.length ≥ q.capacity then none
  else some { q with nodes := bubble_up (q.nodes ++ [⟨timestamp, value⟩]) q.nodes.length }

/-- The min-heap shape property: no parent's timestamp is greater than
either in-range child's timestamp. -/
def isMinHeap (l : List TimestampNode) : Prop :=
  ∀ i, i < l.length →
    (2 * i + 1 < l.length → tsAt l i ≤ tsAt l (2 * i + 1)) ∧
    (2 * i + 2 < l.length → tsAt l i ≤ tsAt l (2 * i + 2))

instance (l : List TimestampNode) : Decidable (isMinHeap l) := by
  unfold isMinHeap; infer_instance

/-- The invariant maintained by `bubble_down`: the heap property may fail
only where `k` is parent, and `k`'s parent (when any) is already no
greater than `k`'s children — the state of the array between sift-down
steps. -/
def HeapExceptAt (l : List TimestampNode) (k : Nat) : Prop :=
  (∀ i, i ≠ k →
    (2 * i + 1 < l.length → tsAt l i ≤ tsAt l (2 * i + 1)) ∧
    (2 * i + 2 < l.length → tsAt l i ≤ tsAt l (2 * i + 2))) ∧
  (∀ p j, (k = 2 * p + 1 ∨ k = 2 * p + 2) → (j = 2 * k + 1 ∨ j = 2 * k + 2) →
    j < l.length → tsAt l p ≤ tsAt l j)

/-! ## Waitlist scheduler (`waitlist.c`) -/

/-- Waitlist state (`WaitlistStruct`): its id and its timestamp queue. -/
structure Waitlist where
  id : String
  queue : TimestampQueue
deriving DecidableEq

/-- `waitlist_new`: asserts a positive capacity, then seeds the queue with
every sub-instruction of the defining instruction at timestamp `0`. The
sub-instructions are read through `instruction_get_num_sub_instructions`
and `instruction_get_sub_instruction_by_index`, whose `GROUP`-type asserts
make this abort (`none`) for any non-`GROUP` defining instruction — in
particular for one of type `WAITLIST`. -/
def waitlist_new (instruction : Instruction) (capacity : Nat) : Option Waitlist :=
  if capacity = 0 then none
  else
    match instruction_get_num_sub_instructions instruction with
    | none => none
    | some num_sub_instructions =>
      ((List.range num_sub_instructions).foldlM
          (fun q idx =>
            match instruction_get_sub_instruction_by_index instruction idx with
            | none => none
            | some sub_instruction_id =>
              str_timestamp_queue_push q 0 sub_instruction_id)
          (str_timestamp_queue_new capacity)).map
        (fun q => { id := instruction.id, queue := q })

/-- The `while (str_timestamp_queue_can_pop(queue))` loop inside
`waitlist_execute`, for one waitlist. `fuel` bounds the number of
iterations (the C loop has no such bound and can diverge); the ids of the
instructions fired (passed to `instruction_execute`) are accumulated in
order. `none` models a fatal assert (unknown instruction id) or fuel
running out mid-loop. -/
def waitlist_execute_loop (imap : InstructionMap) (now : Int) :
    Nat → TimestampQueue → List String → Option (TimestampQueue × List String)
  | 0, q, fired => if str_timestamp_queue_can_pop now q then none else some (q, fired)
  | fuel + 1, q, fired =>
    if str_timestamp_queue_can_pop now q then
      match str_timestamp_queue_peek_value q with
      | none => none
      | some instruction_id =>
        match instruction_map_get imap instruction_id with
        | none => none
        | some instruction =>
          let cooldown := instruction_get_parameter_lower_value instruction .COOLDOWN
          let updated_timestamp := now + cooldown
          match str_timestamp_queue_pop q updated_timestamp with
          | none => none
          | some (_, q') =>
            match instruction_execute instruction with
            | none => none
            | some _ => waitlist_execute_loop imap now fuel q' (fired ++ [instruction_id])
    else some (q, fired)

/-! ## Routine scheduler (`routine.c`) -/

/-- Routine state (`RoutineStruct`): the cursor `current_idx` and the
cycle-freeze bound `bound_idx` (`-1` means unfrozen). -/
structure Routine where
  id : String
  instruction_ids : List String
  current_idx : Nat
  bound_idx : Int
deriving DecidableEq

/-- `routine_new`: asserts a positive resize value and a scheduler-typed
instruction, then copies the sub-instruction ids (read through the
`GROUP`-asserting accessors, so the copy aborts for any scheduler-typed
instruction — the C function can never return normally) and starts with
`current_idx = 0`, `bound_idx = -1`. -/
def routine_new (instruction : Instruction) (resize_value : Nat) : Option Routine :=
  if resize_value = 0 then none
  else if instruction_type_is_scheduler instruction.type = false then none
  else
    match instruction_get_num_sub_instructions instruction with
    | none => none
    | some num_sub_instructions =>
      ((List.range num_sub_instructions).foldlM
          (fun ids idx =>
            (instruction_get_sub_instruction_by_index instruction idx).map
              (fun sid => ids ++ [sid]))
          ([] : List String)).map
        (fun ids =>
          { id := instruction.id
            instruction_ids := ids
            current_idx := 0
            bound_idx := -1 })

/-- `routine_insert_instruction`: append the instruction's id; if
`bound_idx` is `-1`, set it to the list size after the insert. -/
def routine_insert_instruction (r : Routine) (instruction : Instruction) : Routine :=
  let ids := r.instruction_ids ++ [instruction.id]
  { r with
    instruction_ids := ids
    bound_idx := if r.bound_idx = -1 then (ids.length : Int) else r.bound_idx }

/-- The tail of `routine_execute_` after the `instruction_execute` call,
with `executed` the boolean that call returned: on `false` return with no
change; on `true` increment the cursor and apply the two wrap rules. -/
def routine_step (executed : Bool) (r : Routine) : Routine :=
  if executed = false then r
  else
    let cursor := r.current_idx + 1
    if r.bound_idx ≥ 0 ∧ (cursor : Int) ≥ r.bound_idx then
      { r with current_idx := 0, bound_idx := -1 }
    else if cursor ≥ r.instruction_ids.length then
      { r with current_idx := 0 }
    else
      { r with current_idx := cursor }

/-- `routine_execute_`: resolve `instruction_ids[current_idx]` (fatal when
out of range), look it up in the instruction map (fatal when absent), call
`instruction_execute` (fatal on type `NONE`), then advance per
`routine_step`. -/
def routine_execute_ (imap : InstructionMap) (r : Routine) : Option Routine :=
  match r.instruction_ids.get? r.current_idx with
  | none => none
  | some instruction_id =>
    match instruction_map_get imap instruction_id with
    | none => none
    | some instruction =>
      match instruction_execute instruction with
      | none => none
      | some executed => some (routine_step executed r)

/-! ## Runtime preparation (`runtime.c`) -/

/-- The mutable state threaded through `runtime_prepare`: the instruction
map, the running list `all_instructions` of parsed instruction ids in
source order, and the top-level `execution_list`. -/
structure RuntimeState where
  imap : InstructionMap
  all_instructions : List String
  execution_list : List String
deriving DecidableEq

/-- The scan inside `try_handle_sub_instruction`: walk the already-parsed
ids from most recent to oldest (the argument is the reversed list), and
return the first whose instruction has a strictly smaller indent. `none`
models the fatal assert on an id missing from the map; `some none` means no
parent was found. -/
def find_parent (imap : InstructionMap) : List String → Nat → Option (Option String)
  | [], _ => some none
  | id :: rest, d =>
    match instruction_map_get imap id with
    | none => none
    | some ref =>
      if ref.indent_count < d then some (some id)
      else find_parent imap rest d

/-- Replace the instruction with the given id by `f` of it (in-place
mutation of the uthash entry). -/
def instruction_map_update (m : InstructionMap) (id : String) (f : Instruction → Instruction) :
    InstructionMap :=
  m.map (fun i => if i.id = id then f i else i)

/-- `try_handle_sub_instruction` from `runtime.c`: returns `false` for an
instruction at indent `0`; otherwise asserts the parsed list is non-empty,
scans it backwards for the first strictly-shallower instruction, appends
the current id to that parent's `sub_instructions` and returns `true`; when
no parent exists it returns `false`. -/
def try_handle_sub_instruction (imap : InstructionMap) (instruction : Instruction)
    (all_instructions : List String) : Option (Bool × InstructionMap) :=
  if instruction.indent_count = 0 then some (false, imap)
  else if all_instructions.length = 0 then none
  else
    match find_parent imap all_instructions.reverse instruction.indent_count with
    | none => none
    | some none => some (false, imap)
    | some (some parent_id) =>
      some (true, instruction_map_update imap parent_id
        (fun p => instruction_add_sub_instruction p instruction.id))

/-- One iteration of the `while (fgets(...))` loop of `runtime_prepare`,
taking the already-parsed instruction of the line (the external
`parse_line_into_instruction` result): skip type `NONE`, insert into the
map (fatal on duplicate id), record the id, attach to a parent when it is a
sub-instruction, else append to the execution list when transactional. -/
def runtime_prepare_step (st : RuntimeState) (instruction : Instruction) :
    Option RuntimeState :=
  if instruction.type = .NONE then some st
  else
    match instruction_map_insert st.imap instruction with
    | none => none
    | some imap1 =>
      let all1 := st.all_instructions ++ [instruction.id]
      match try_handle_sub_instruction imap1 instruction all1 with
      | none => none
      | some (true, imap2) =>
        some { imap := imap2, all_instructions := all1, execution_list := st.execution_list }
      | some (false, imap2) =>
        if instruction_type_is_transaction instruction.type then
          some { imap := imap2, all_instructions := all1,
                 execution_list := st.execution_list ++ [instruction.id] }
        else
          some { imap := imap2, all_instructions := all1, execution_list := st.execution_list }

/-- `runtime_prepare`, over the per-line parse results of the script in
source order. -/
def runtime_prepare (lines : List Instruction) : Option RuntimeState :=
  lines.foldlM runtime_prepare_step ⟨[], [], []⟩

/-! ## Alias generation (`instruction_map_generate_alias` in `instruction.c`) -/

/-- Decimal digit characters of a natural number, most significant first
(the digits `%d` prints). -/
def decChars (n : Nat) : List Char :=
  if n = 0 then ['0'] else (Nat.digits 10 n).reverse.map Nat.digitChar

/-- The characters `sprintf` produces for `%02d`: the decimal digits,
zero-padded on the left to width two. -/
def pad2 (n : Nat) : List Char :=
  if n < 10 then '0' :: decChars n else decChars n

/-- The string `sprintf(alias, "%s%02d(%s)", "Alias_", counter, original_id)`
builds. -/
def aliasString (counter : Nat) (original_id : String) : String :=
  ⟨"Alias_".data ++ pad2 counter ++ '(' :: original_id.data ++ [')']⟩

/-- `instruction_map_generate_alias`: returns the formatted alias for the
current value of the static counter `instruction_alias_counter` and
increments the counter. -/
def instruction_map_generate_alias (counter : Nat) (original_id : String) :
    String × Nat :=
  (aliasString counter original_id, counter + 1)

/-- The shape the spec's alias regex `Alias_[0-9]{2,}\(.+\)` describes:
the literal prefix, at least two digits, an opening parenthesis, a
non-empty remainder, and a closing parenthesis. -/
def matchesAliasRegex (s : String) : Prop :=
  ∃ ds rest : List Char,
    s.data = "Alias_".data ++ ds ++ '(' :: rest ++ [')'] ∧
    2 ≤ ds.length ∧ (∀ c ∈ ds, c.isDigit) ∧ rest ≠ []

/-! ## Specification-side definitions and concrete fixtures -/

/-- Spec-side description of the execution list (amended): walking the
lines in source order past the already-parsed instructions `prev`, a
non-`NONE` instruction contributes its id exactly when it is transactional
and is not attached to a parent, i.e. not (indented with some earlier
instruction strictly shallower). -/
def execution_spec : List Instruction → List Instruction → List String
  | _, [] => []
  | prev, i :: rest =>
    if i.type = .NONE then execution_spec prev rest
    else
      (if instruction_type_is_transaction i.type = true ∧
          ¬(0 < i.indent_count ∧
            prev.any (fun p => p.indent_count < i.indent_count) = true) then
        [i.id]
      else []) ++ execution_spec (prev ++ [i]) rest

/-- The parse-time identity of an instruction: the fields of a registered
instruction that `runtime_prepare` reads (its id, indent and type); the
only field the preparation pass ever mutates is `sub_instructions`. -/
def instructionView (i : Instruction) : String × Nat × InstructionType :=
  (i.id, i.indent_count, i.type)

/-- Fixture: a transactional instruction at indent 1 with no preceding
line, i.e. an orphan sub-instruction. -/
def orphanInstr : Instruction :=
  { instruction_new with id := "p", type := .PRESS, indent_count := 1 }

/-- Fixture: a defining instruction with the single child `"x"`, typed
`GROUP` — the only type for which the `GROUP`-asserting sub-instruction
accessors called by `waitlist_new` do not abort, so the only way the C
`waitlist_new` can actually seed a queue. -/
def waitlistInstr : Instruction :=
  { instruction_new with id := "w", type := .GROUP, sub_instructions := ["x"] }

/-- Fixture: the child key instruction `"x"` (default cooldown `[0, 0]`). -/
def childKeyInstr : Instruction :=
  { instruction_new with id := "x", type := .KEY }

/-! ## Claim theorems -/

/-- Claim C1 (code bug): the claim states that `can_pop` is true iff the
heap is non-empty and `now ≥ root.ts`. On the heap holding the single node
`(ts 0, "x")` at `now = 5` the heap is non-empty and `5 ≥ 0`, so the claim
requires `true`, but `str_timestamp_queue_can_pop` — which compares
`current_timestamp <= min_node->timestamp` — returns `false`. -/
theorem can_pop_inverted_at_due_root :
    str_timestamp_queue_get_size ⟨1, [⟨0, "x"⟩]⟩ ≠ 0 ∧
    (5 : Int) ≥ tsAt [⟨0, "x"⟩] 0 ∧
    str_timestamp_queue_can_pop 5 ⟨1, [⟨0, "x"⟩]⟩ = false := by
  refine ⟨by decide, by decide, rfl⟩

/-- Claim C8 counterexample: the claim says the definition predicate
returns `true` for `random`, but `instruction_type_is_definition` has no
`RANDOM` case and falls through to `false`. -/
theorem is_definition_random_false :
    instruction_type_is_definition .RANDOM = false := rfl

/-- Claim C8 (amended): `instruction_type_is_definition` returns `true`
exactly for the six kinds `key`, `script`, `window`, `waitlist`, `routine`
and `group`, and `false` for every other kind (in particular `random`). -/
theorem is_definition_characterization (t : InstructionType) :
    instruction_type_is_definition t = true ↔
      (t = .KEY ∨ t = .SCRIPT ∨ t = .WINDOW ∨ t = .WAITLIST ∨ t = .ROUTINE ∨ t = .GROUP) := by
  cases t <;> simp [instruction_type_is_definition]

/-- Claim C10: for every instruction whose type is set (not `NONE`),
`instruction_execute` returns `false` (not-ready) and does nothing else;
consequently a routine tick that completes never changes the routine
state — no scheduler ever observes a successful child execution. -/
theorem instruction_execute_always_not_ready :
    (∀ i : Instruction, i.type ≠ .NONE → instruction_execute i = some false) ∧
    (∀ (imap : InstructionMap) (r r' : Routine),
      routine_execute_ imap r = some r' → r' = r) := by
  constructor
  · intro i h
    simp [instruction_execute, h]
  · intro imap r r' h
    unfold routine_execute_ at h
    split at h
    · exact absurd h (by simp)
    split at h
    · exact absurd h (by simp)
    split at h
    · exact absurd h (by simp)
    next instruction executed heq =>
      simp only [Option.some.injEq] at h
      unfold instruction_execute at heq
      split at heq
      · exact absurd heq (by simp)
      · simp only [Option.some.injEq] at heq
        rw [← h, ← heq]
        rfl

/-- Claim C10 witness: concrete instances of both conjuncts, at a `PRESS`
instruction and at a routine over it. -/
theorem instruction_execute_always_not_ready_witness :
    instruction_execute { instruction_new with id := "a", type := .PRESS } = some false ∧
    (⟨"r", ["a"], 0, -1⟩ : Routine) = ⟨"r", ["a"], 0, -1⟩ :=
  ⟨instruction_execute_always_not_ready.1
      { instruction_new with id := "a", type := .PRESS } (by decide),
    instruction_execute_always_not_ready.2
      [{ instruction_new with id := "a", type := .PRESS }]
      ⟨"r", ["a"], 0, -1⟩ ⟨"r", ["a"], 0, -1⟩ (by decide)⟩

/-- Claim C3: for a routine tick, when executing the child at the cursor
reports not-ready (`false`) the state is unchanged; when it reports
success, the cursor is incremented and then (i) if `frozen_end ≥ 0` and
the cursor reached it, the cursor resets to `0` and `frozen_end` to `-1`,
(ii) else if the cursor reached the number of children it resets to `0`,
(iii) else the incremented cursor stands. -/
theorem routine_tick_cursor_spec (r : Routine) :
    routine_step false r = r ∧
    (r.bound_idx ≥ 0 ∧ ((r.current_idx + 1 : Nat) : Int) ≥ r.bound_idx →
      routine_step true r = { r with current_idx := 0, bound_idx := -1 }) ∧
    (¬(r.bound_idx ≥ 0 ∧ ((r.current_idx + 1 : Nat) : Int) ≥ r.bound_idx) →
      r.current_idx + 1 ≥ r.instruction_ids.length →
      routine_step true r = { r with current_idx := 0 }) ∧
    (¬(r.bound_idx ≥ 0 ∧ ((r.current_idx + 1 : Nat) : Int) ≥ r.bound_idx) →
      r.current_idx + 1 < r.instruction_ids.length →
      routine_step true r = { r with current_idx := r.current_idx + 1 }) := by
  refine ⟨rfl, ?_, ?_, ?_⟩
  · intro h
    simp only [routine_step]
    rw [if_neg (by simp), if_pos h]
  · intro h h2
    simp only [routine_step]
    rw [if_neg (by simp), if_neg h, if_pos h2]
  · intro h h2
    simp only [routine_step]
    rw [if_neg (by simp), if_neg h, if_neg (by omega)]

/-- Claim C3 witness: the three successful-advance shapes and the
not-ready shape at concrete routines. -/
theorem routine_tick_cursor_spec_witness :
    routine_step false ⟨"r", ["a", "b"], 1, 2⟩ = ⟨"r", ["a", "b"], 1, 2⟩ ∧
    routine_step true ⟨"r", ["a", "b"], 1, 2⟩ = ⟨"r", ["a", "b"], 0, -1⟩ ∧
    routine_step true ⟨"s", ["a", "b"], 1, -1⟩ = ⟨"s", ["a", "b"], 0, -1⟩ ∧
    routine_step true ⟨"t", ["a", "b", "c"], 0, -1⟩ = ⟨"t", ["a", "b", "c"], 1, -1⟩ :=
  ⟨(routine_tick_cursor_spec _).1,
    (routine_tick_cursor_spec _).2.1 (by constructor <;> decide),
    (routine_tick_cursor_spec _).2.2.1 (by decide) (by decide),
    (routine_tick_cursor_spec _).2.2.2 (by decide) (by decide)⟩

/-- Claim C7: inserting into a routine whose `frozen_end` (`bound_idx`) is
unfrozen (`-1`) appends the child and records `frozen_end` equal to the
number of children after the insert; a later insertion in the same cycle
leaves `frozen_end` unchanged; and a tick changes `frozen_end` only by the
wrap that resets it to `-1` once the cursor reaches it. -/
theorem routine_insert_frozen_end_spec (r : Routine) (i : Instruction) :
    (r.bound_idx = -1 →
      routine_insert_instruction r i =
        { r with instruction_ids := r.instruction_ids ++ [i.id],
                 bound_idx := ((r.instruction_ids.length + 1 : Nat) : Int) }) ∧
    (r.bound_idx ≠ -1 →
      routine_insert_instruction r i =
        { r with instruction_ids := r.instruction_ids ++ [i.id] }) ∧
    (∀ b : Bool, (routine_step b r).bound_idx = r.bound_idx ∨
      ((routine_step b r).bound_idx = -1 ∧ r.bound_idx ≥ 0 ∧
        ((r.current_idx + 1 : Nat) : Int) ≥ r.bound_idx)) := by
  refine ⟨?_, ?_, ?_⟩
  · intro h
    simp [routine_insert_instruction, h]
  · intro h
    simp [routine_insert_instruction, h]
  · intro b
    cases b with
    | false => exact Or.inl rfl
    | true =>
      by_cases h : r.bound_idx ≥ 0 ∧ ((r.current_idx + 1 : Nat) : Int) ≥ r.bound_idx
      · refine Or.inr ⟨?_, h.1, h.2⟩
        simp only [routine_step]
        rw [if_neg (by simp), if_pos h]
      · refine Or.inl ?_
        simp only [routine_step]
        rw [if_neg (by simp), if_neg h]
        split <;> rfl

/-- Claim C7 witness: first insert freezes at the post-insert size, second
insert leaves the bound, and the wrap resets it. -/
theorem routine_insert_frozen_end_spec_witness :
    routine_insert_instruction ⟨"r", ["a", "b"], 1, -1⟩ childKeyInstr =
      ⟨"r", ["a", "b", "x"], 1, 3⟩ ∧
    routine_insert_instruction ⟨"r", ["a", "b", "x"], 1, 3⟩ orphanInstr =
      ⟨"r", ["a", "b", "x", "p"], 1, 3⟩ ∧
    ((routine_step true ⟨"r", ["a", "b", "x"], 2, 3⟩).bound_idx = 3 ∨
      ((routine_step true ⟨"r", ["a", "b", "x"], 2, 3⟩).bound_idx = -1 ∧
        (3 : Int) ≥ 0 ∧ ((2 + 1 : Nat) : Int) ≥ 3)) :=
  ⟨by have h := (routine_insert_frozen_end_spec ⟨"r", ["a", "b"], 1, -1⟩ childKeyInstr).1 rfl
      simpa [childKeyInstr, instruction_new] using h,
    by have h := (routine_insert_frozen_end_spec ⟨"r", ["a", "b", "x"], 1, 3⟩ orphanInstr).2.1
        (by decide)
       simpa [orphanInstr, instruction_new] using h,
    (routine_insert_frozen_end_spec ⟨"r", ["a", "b", "x"], 2, 3⟩ childKeyInstr).2.2 true⟩

/-- Claim C5 (code bug): the claim states that an instruction at indent
greater than 0 with no previously parsed strictly-shallower instruction is
a fatal parse error. In the code `try_handle_sub_instruction` merely
returns `false` in that case and `runtime_prepare` continues: parsing the
single orphan line succeeds (and even places the orphan in the execution
list). -/
theorem orphan_indent_parses_successfully :
    orphanInstr.indent_count > 0 ∧
    runtime_prepare [orphanInstr] = some ⟨[orphanInstr], ["p"], ["p"]⟩ := by
  refine ⟨by decide, by decide⟩

/-- Claim C6 counterexample: for the successfully parsed one-line script
consisting of the orphan indented `press`, the execution list contains the
id of an instruction whose indent is greater than 0, refuting the claim
that only indent-0 instructions ever appear in it. -/
theorem execution_list_contains_indented_orphan :
    (runtime_prepare [orphanInstr]).map (fun st => st.execution_list) = some ["p"] ∧
    orphanInstr.indent_count ≠ 0 ∧
    instruction_type_is_transaction orphanInstr.type = true := by
  refine ⟨by decide, by decide, by decide⟩

/-- Bubbling up from the root leaves the node array unchanged. -/
lemma bubble_up_zero (l : List TimestampNode) : bubble_up l 0 = l := by
  unfold bubble_up
  simp

/-- Claim C2 (code bug): the claim states that at a waitlist tick at time
`t` every child whose next-eligible timestamp is at most `t` fires exactly
once. In the code, `waitlist_new` applied to a `WAITLIST`-typed defining
instruction already aborts (its sub-instruction accessors fatally assert
type `GROUP`); seeding only succeeds through a `GROUP`-typed instruction,
which places the single child `"x"` at timestamp `0`. At the tick time
`t = 1` we have `0 ≤ 1`, yet the loop guard `str_timestamp_queue_can_pop`
(which tests `now ≤ root.ts`) is false, so for every fuel bound the loop
fires nothing and leaves the queue untouched. (The re-key also uses the
cooldown's lower bound, not a sample of the range.) -/
theorem waitlist_tick_due_child_never_fires :
    waitlist_new { waitlistInstr with type := .WAITLIST } 4 = none ∧
    waitlist_new waitlistInstr 4 = some ⟨"w", ⟨4, [⟨0, "x"⟩]⟩⟩ ∧
    tsAt [⟨0, "x"⟩] 0 ≤ 1 ∧
    ∀ fuel, waitlist_execute_loop [childKeyInstr] 1 fuel ⟨4, [⟨0, "x"⟩]⟩ [] =
      some (⟨4, [⟨0, "x"⟩]⟩, []) := by
  refine ⟨?_, ?_, by decide, ?_⟩
  · simp [waitlist_new, waitlistInstr, instruction_new,
      instruction_get_num_sub_instructions]
  · simp [waitlist_new, waitlistInstr, instruction_new,
      instruction_get_num_sub_instructions, instruction_get_sub_instruction_by_index,
      str_timestamp_queue_new, str_timestamp_queue_push, bubble_up_zero,
      List.range_succ]
  · intro fuel
    cases fuel <;> rfl

/-! ## Heap lemmas for claim C4 -/

lemma getD_set_self (l : List TimestampNode) (i : Nat) (v : TimestampNode)
    (hi : i < l.length) : (l.set i v).getD i default = v := by
  rw [List.getD_eq_getElem _ _ (by simpa using hi)]
  simp [List.getElem_set]

lemma getD_set_ne (l : List TimestampNode) (i x : Nat) (v : TimestampNode)
    (h : x ≠ i) : (l.set i v).getD x default = l.getD x default := by
  by_cases hx : x < l.length
  · rw [List.getD_eq_getElem _ _ (by simpa using hx), List.getD_eq_getElem _ _ hx,
      List.getElem_set_of_ne (by omega)]
  · rw [List.getD_eq_default _ _ (by simpa using Nat.le_of_not_lt hx),
      List.getD_eq_default _ _ (Nat.le_of_not_lt hx)]

lemma length_swapNodes (l : List TimestampNode) (i j : Nat) :
    (swapNodes l i j).length = l.length := by
  simp [swapNodes]

lemma tsAt_swapNodes (l : List TimestampNode) (i j x : Nat)
    (hi : i < l.length) (hj : j < l.length) :
    tsAt (swapNodes l i j) x =
      if x = j then tsAt l i else if x = i then tsAt l j else tsAt l x := by
  unfold swapNodes tsAt
  by_cases hxj : x = j
  · subst hxj
    rw [if_pos rfl, getD_set_self _ _ _ (by simpa using hj)]
  · rw [if_neg hxj, getD_set_ne _ _ _ _ hxj]
    by_cases hxi : x = i
    · subst hxi
      rw [if_pos rfl, getD_set_self _ _ _ hi]
    · rw [if_neg hxi, getD_set_ne _ _ _ _ hxi]

lemma tsAt_heapMin1_le_self (l : List TimestampNode) (k : Nat) :
    tsAt l (heapMin1 l k) ≤ tsAt l k := by
  unfold heapMin1
  split_ifs <;> omega

lemma tsAt_heapMin1_le_left (l : List TimestampNode) (k : Nat) :
    tsAt l (heapMin1 l k) ≤ tsAt l (2 * k + 1) := by
  unfold heapMin1
  split_ifs <;> omega

lemma tsAt_heapMinIdx_le_self (l : List TimestampNode) (k : Nat) :
    tsAt l (heapMinIdx l k) ≤ tsAt l k := by
  have h1 := tsAt_heapMin1_le_self l k
  unfold heapMinIdx
  split_ifs with h <;> omega

lemma tsAt_heapMinIdx_le_left (l : List TimestampNode) (k : Nat) :
    tsAt l (heapMinIdx l k) ≤ tsAt l (2 * k + 1) := by
  have h1 := tsAt_heapMin1_le_left l k
  unfold heapMinIdx
  split_ifs with h <;> omega

lemma tsAt_heapMinIdx_le_right (l : List TimestampNode) (k : Nat)
    (hR : 2 * k + 2 < l.length) : tsAt l (heapMinIdx l k) ≤ tsAt l (2 * k + 2) := by
  unfold heapMinIdx
  split_ifs with h
  · omega
  · rw [not_and_or] at h
    rcases h with h | h
    · omega
    · omega

lemma tsAt_heapMinIdx_lt_self (l : List TimestampNode) (k : Nat)
    (hne : heapMinIdx l k ≠ k) : tsAt l (heapMinIdx l k) < tsAt l k := by
  unfold heapMinIdx at hne ⊢
  unfold heapMin1 at hne ⊢
  split_ifs at hne ⊢ with h1 h2 <;> omega

lemma heapMinIdx_ne_cases (l : List TimestampNode) (k : Nat)
    (hne : heapMinIdx l k ≠ k) :
    heapMinIdx l k = 2 * k + 1 ∨ (heapMinIdx l k = 2 * k + 2 ∧ 2 * k + 2 < l.length) := by
  unfold heapMinIdx at hne ⊢
  unfold heapMin1 at hne ⊢
  split_ifs at hne ⊢ with h1 h2 <;> simp_all

lemma heapMinIdx_cases (l : List TimestampNode) (k : Nat) :
    heapMinIdx l k = k ∨ heapMinIdx l k = 2 * k + 1 ∨ heapMinIdx l k = 2 * k + 2 := by
  unfold heapMinIdx heapMin1
  split_ifs <;> simp

lemma heapMinIdx_lt_length (l : List TimestampNode) (k : Nat)
    (hL : 2 * k + 1 < l.length) : heapMinIdx l k < l.length := by
  rcases heapMinIdx_cases l k with h | h | h
  · omega
  · omega
  · rcases heapMinIdx_ne_cases l k (by omega) with h2 | h2 <;> omega

lemma isMinHeap_of_heapExceptAt_no_children (l : List TimestampNode) (k : Nat)
    (h : HeapExceptAt l k) (hL : l.length ≤ 2 * k + 1) : isMinHeap l := by
  intro i _
  by_cases hik : i = k
  · subst hik
    exact ⟨fun hc => absurd hc (by omega), fun hc => absurd hc (by omega)⟩
  · exact h.1 i hik

lemma isMinHeap_of_heapExceptAt_done (l : List TimestampNode) (k : Nat)
    (h : HeapExceptAt l k) (hmk : heapMinIdx l k = k) : isMinHeap l := by
  intro i _
  by_cases hik : i = k
  · subst hik
    constructor
    · intro _
      have := tsAt_heapMinIdx_le_left l i
      rw [hmk] at this
      exact this
    · intro hc
      have := tsAt_heapMinIdx_le_right l i hc
      rw [hmk] at this
      exact this
  · exact h.1 i hik

lemma heapExceptAt_swap (l : List TimestampNode) (k : Nat)
    (hL : 2 * k + 1 < l.length) (hne : heapMinIdx l k ≠ k) (h : HeapExceptAt l k) :
    HeapExceptAt (swapNodes l k (heapMinIdx l k)) (heapMinIdx l k) := by
  set m := heapMinIdx l k with hm
  have hcases : m = 2 * k + 1 ∨ (m = 2 * k + 2 ∧ 2 * k + 2 < l.length) :=
    heapMinIdx_ne_cases l k hne
  have hklen : k < l.length := by omega
  have hmlen : m < l.length := heapMinIdx_lt_length l k hL
  have hlt : tsAt l m < tsAt l k := tsAt_heapMinIdx_lt_self l k hne
  have hleL : tsAt l m ≤ tsAt l (2 * k + 1) := tsAt_heapMinIdx_le_left l k
  have hleR : 2 * k + 2 < l.length → tsAt l m ≤ tsAt l (2 * k + 2) :=
    fun hR => tsAt_heapMinIdx_le_right l k hR
  have hswap : ∀ x, tsAt (swapNodes l k m) x =
      if x = m then tsAt l k else if x = k then tsAt l m else tsAt l x :=
    fun x => tsAt_swapNodes l k m x hklen hmlen
  have hlen : (swapNodes l k m).length = l.length := length_swapNodes l k m
  have hmgtk : k < m := by omega
  constructor
  · intro i hi
    constructor
    · intro hc
      rw [hlen] at hc
      rw [hswap i, hswap (2 * i + 1)]
      by_cases hik : i = k
      · subst hik
        rw [if_neg (by omega), if_pos rfl]
        by_cases hjm : 2 * i + 1 = m
        · rw [if_pos hjm]
          exact le_of_lt hlt
        · rw [if_neg hjm, if_neg (by omega)]
          exact hleL
      · rw [if_neg hi, if_neg hik]
        by_cases hjm : 2 * i + 1 = m
        · exfalso
          omega
        · rw [if_neg hjm]
          by_cases hjk : 2 * i + 1 = k
          · rw [if_pos hjk]
            exact h.2 i m (Or.inl hjk.symm) (by omega) hmlen
          · rw [if_neg hjk]
            exact (h.1 i hik).1 hc
    · intro hc
      rw [hlen] at hc
      rw [hswap i, hswap (2 * i + 2)]
      by_cases hik : i = k
      · subst hik
        rw [if_neg (by omega), if_pos rfl]
        by_cases hjm : 2 * i + 2 = m
        · rw [if_pos hjm]
          exact le_of_lt hlt
        · rw [if_neg hjm, if_neg (by omega)]
          exact hleR hc
      · rw [if_neg hi, if_neg hik]
        by_cases hjm : 2 * i + 2 = m
        · exfalso
          omega
        · rw [if_neg hjm]
          by_cases hjk : 2 * i + 2 = k
          · rw [if_pos hjk]
            exact h.2 i m (Or.inr hjk.symm) (by omega) hmlen
          · rw [if_neg hjk]
            exact (h.1 i hik).2 hc
  · intro p j hp hj hjlen
    rw [hlen] at hjlen
    have hpk : p = k := by omega
    subst hpk
    rw [hswap p, hswap j]
    rw [if_neg (by omega), if_pos rfl, if_neg (by omega), if_neg (by omega)]
    rcases hj with hj | hj
    · subst hj
      exact (h.1 m (by omega)).1 hjlen
    · subst hj
      exact (h.1 m (by omega)).2 hjlen

lemma bubble_down_isMinHeap_aux (n : Nat) :
    ∀ l k, l.length - k ≤ n → HeapExceptAt l k → isMinHeap (bubble_down l k) := by
  induction n with
  | zero =>
    intro l k hn h
    unfold bubble_down
    rw [if_pos (by omega)]
    exact isMinHeap_of_heapExceptAt_no_children l k h (by omega)
  | succ n ih =>
    intro l k hn h
    unfold bubble_down
    split_ifs with h1 h2
    · exact isMinHeap_of_heapExceptAt_no_children l k h (by omega)
    · exact isMinHeap_of_heapExceptAt_done l k h h2
    · have hgt : k < heapMinIdx l k := by
        rcases heapMinIdx_ne_cases l k h2 with hc | hc <;> omega
      apply ih
      · rw [length_swapNodes]
        omega
      · exact heapExceptAt_swap l k (by omega) h2 h

lemma bubble_down_isMinHeap (l : List TimestampNode) (k : Nat)
    (h : HeapExceptAt l k) : isMinHeap (bubble_down l k) :=
  bubble_down_isMinHeap_aux l.length l k (by omega) h

lemma bubble_down_length_aux (n : Nat) :
    ∀ l k, l.length - k ≤ n → (bubble_down l k).length = l.length := by
  induction n with
  | zero =>
    intro l k hn
    unfold bubble_down
    rw [if_pos (by omega)]
  | succ n ih =>
    intro l k hn
    unfold bubble_down
    split_ifs with h1 h2
    · rfl
    · rfl
    · have hgt : k < heapMinIdx l k := by
        rcases heapMinIdx_ne_cases l k h2 with hc | hc <;> omega
      rw [ih _ _ (by rw [length_swapNodes]; omega), length_swapNodes]

lemma bubble_down_length (l : List TimestampNode) (k : Nat) :
    (bubble_down l k).length = l.length :=
  bubble_down_length_aux l.length l k (by omega)

lemma cons_set_perm (a : TimestampNode) :
    ∀ (t : List TimestampNode) (j : Nat), j < t.length →
      List.Perm (t.getD j default :: t.set j a) (a :: t) := by
  intro t
  induction t with
  | nil => intro j hj; exact absurd hj (by simp)
  | cons b t' ih =>
    intro j hj
    cases j with
    | zero =>
      simp only [List.getD_cons_zero, List.set_cons_zero]
      exact List.Perm.swap a b t'
    | succ j' =>
      simp only [List.getD_cons_succ, List.set_cons_succ]
      have hstep := ih j' (by simpa using hj)
      have p1 : List.Perm (t'.getD j' default :: b :: t'.set j' a)
          (b :: t'.getD j' default :: t'.set j' a) := List.Perm.swap b _ _
      have p2 := hstep.cons b
      have p3 := List.Perm.swap a b t'
      exact p1.trans (p2.trans p3)

lemma swapNodes_perm :
    ∀ (l : List TimestampNode) (i j : Nat), i < l.length → j < l.length →
      List.Perm (swapNodes l i j) l := by
  intro l
  induction l with
  | nil => intro i j hi _; exact absurd hi (by simp)
  | cons a t ih =>
    intro i j hi hj
    cases i with
    | zero =>
      cases j with
      | zero => simp [swapNodes]
      | succ j' =>
        have hj' : j' < t.length := by simpa using hj
        unfold swapNodes
        simp only [List.getD_cons_succ, List.getD_cons_zero, List.set_cons_zero,
          List.set_cons_succ]
        exact cons_set_perm a t j' hj'
    | succ i' =>
      cases j with
      | zero =>
        have hi' : i' < t.length := by simpa using hi
        unfold swapNodes
        simp only [List.getD_cons_succ, List.getD_cons_zero, List.set_cons_zero,
          List.set_cons_succ]
        exact cons_set_perm a t i' hi'
      | succ j' =>
        have hi' : i' < t.length := by simpa using hi
        have hj' : j' < t.length := by simpa using hj
        unfold swapNodes
        simp only [List.getD_cons_succ, List.set_cons_succ]
        exact (ih i' j' hi' hj').cons a

lemma bubble_down_perm_aux (n : Nat) :
    ∀ l k, l.length - k ≤ n → List.Perm (bubble_down l k) l := by
  induction n with
  | zero =>
    intro l k hn
    unfold bubble_down
    rw [if_pos (by omega)]
  | succ n ih =>
    intro l k hn
    unfold bubble_down
    split_ifs with h1 h2
    · exact List.Perm.refl l
    · exact List.Perm.refl l
    · have hgt : k < heapMinIdx l k := by
        rcases heapMinIdx_ne_cases l k h2 with hc | hc <;> omega
      have hmlen : heapMinIdx l k < l.length := heapMinIdx_lt_length l k (by omega)
      exact (ih _ _ (by rw [length_swapNodes]; omega)).trans
        (swapNodes_perm l k (heapMinIdx l k) (by omega) hmlen)

lemma bubble_down_perm (l : List TimestampNode) (k : Nat) : List.Perm (bubble_down l k) l :=
  bubble_down_perm_aux l.length l k (by omega)

lemma tsAt_cons_ne_zero (x y : TimestampNode) (t : List TimestampNode) (j : Nat)
    (hj : j ≠ 0) : tsAt (x :: t) j = tsAt (y :: t) j := by
  obtain ⟨j', rfl⟩ : ∃ j', j = j' + 1 := ⟨j - 1, by omega⟩
  simp [tsAt]

/-- Re-keying the root of a min-heap leaves a `HeapExceptAt` state at the
root, which is what `bubble_down` repairs. -/
lemma heapExceptAt_rekey_root (n0 : TimestampNode) (rest : List TimestampNode) (u : Int)
    (hheap : isMinHeap (n0 :: rest)) :
    HeapExceptAt (⟨u, n0.value⟩ :: rest) 0 := by
  constructor
  · intro i hi
    have hlen : (⟨u, n0.value⟩ :: rest : List TimestampNode).length =
        (n0 :: rest : List TimestampNode).length := by simp
    constructor
    · intro hc
      rw [hlen] at hc
      rw [tsAt_cons_ne_zero _ n0 _ i hi, tsAt_cons_ne_zero _ n0 _ (2 * i + 1) (by omega)]
      exact (hheap i (by simp at hc ⊢; omega)).1 hc
    · intro hc
      rw [hlen] at hc
      rw [tsAt_cons_ne_zero _ n0 _ i hi, tsAt_cons_ne_zero _ n0 _ (2 * i + 2) (by omega)]
      exact (hheap i (by simp at hc ⊢; omega)).2 hc
  · intro p j hp _ _
    rcases hp with hp | hp <;> exact absurd hp (by omega)

/-- Claim C4: on a non-empty well-formed min-heap, `pop(new_ts)` succeeds,
returns the value at the root before the call, re-keys that entry to
`new_ts` in place (the node multiset is that of the old heap with the root
re-keyed), leaves the size unchanged, and restores the min-heap shape (no
parent's timestamp greater than either child's). -/
theorem pop_preserves_size_and_heap (q : TimestampQueue) (new_ts : Int)
    (hne : q.nodes ≠ []) (hheap : isMinHeap q.nodes) :
    ∃ v q', str_timestamp_queue_pop q new_ts = some (v, q') ∧
      v = (q.nodes.headD default).value ∧
      str_timestamp_queue_get_size q' = str_timestamp_queue_get_size q ∧
      List.Perm q'.nodes (⟨new_ts, v⟩ :: q.nodes.tail) ∧
      isMinHeap q'.nodes := by
  obtain ⟨n0, rest, hq⟩ : ∃ n0 rest, q.nodes = n0 :: rest := by
    cases hq : q.nodes with
    | nil => exact absurd hq hne
    | cons a t => exact ⟨a, t, rfl⟩
  refine ⟨n0.value, ⟨q.capacity, bubble_down (⟨new_ts, n0.value⟩ :: rest) 0⟩,
    ?_, ?_, ?_, ?_, ?_⟩
  · simp [str_timestamp_queue_pop, hq]
  · rw [hq]
    rfl
  · unfold str_timestamp_queue_get_size
    rw [bubble_down_length, hq]
    simp
  · rw [hq]
    simpa using bubble_down_perm (⟨new_ts, n0.value⟩ :: rest) 0
  · exact bubble_down_isMinHeap _ 0 (heapExceptAt_rekey_root n0 rest new_ts (hq ▸ hheap))

/-- Claim C4 witness: the theorem applied to the singleton heap
`[(ts 0, "a")]` with new timestamp `7`. -/
theorem pop_preserves_size_and_heap_witness :
    (([⟨0, "a"⟩] : List TimestampNode) ≠ [] ∧ isMinHeap [⟨0, "a"⟩]) ∧
    ∃ v q', str_timestamp_queue_pop ⟨1, [⟨0, "a"⟩]⟩ 7 = some (v, q') ∧
      v = (([⟨0, "a"⟩] : List TimestampNode).headD default).value ∧
      str_timestamp_queue_get_size q' =
        str_timestamp_queue_get_size ⟨1, [⟨0, "a"⟩]⟩ ∧
      List.Perm q'.nodes (⟨7, v⟩ :: ([⟨0, "a"⟩] : List TimestampNode).tail) ∧
      isMinHeap q'.nodes :=
  ⟨⟨by decide, by decide⟩,
    pop_preserves_size_and_heap ⟨1, [⟨0, "a"⟩]⟩ 7 (by decide) (by decide)⟩

/-! ## Alias lemmas for claim C9 -/

lemma digitChar_isDigit : ∀ d, d < 10 → (Nat.digitChar d).isDigit = true := by decide

lemma digitChar_inj : ∀ a, a < 10 → ∀ b, b < 10 →
    Nat.digitChar a = Nat.digitChar b → a = b := by decide

lemma digitChar_eq_zero_iff : ∀ d, d < 10 → (Nat.digitChar d = '0' ↔ d = 0) := by decide

lemma decChars_lt_ten (n : Nat) (h : n < 10) : decChars n = [Nat.digitChar n] := by
  unfold decChars
  by_cases h0 : n = 0
  · subst h0
    rfl
  · rw [if_neg h0, Nat.digits_def' (by norm_num) (by omega)]
    have hdiv : n / 10 = 0 := by omega
    rw [hdiv]
    simp [Nat.mod_eq_of_lt h]

lemma decChars_all_digit (n : Nat) : ∀ c ∈ decChars n, c.isDigit = true := by
  intro c hc
  unfold decChars at hc
  split_ifs at hc with h0
  · simp at hc
    subst hc
    decide
  · simp only [List.mem_map, List.mem_reverse] at hc
    obtain ⟨d, hd, rfl⟩ := hc
    exact digitChar_isDigit d (Nat.digits_lt_base (by norm_num) hd)

lemma decChars_length_ge_two (n : Nat) (h : 10 ≤ n) : 2 ≤ (decChars n).length := by
  unfold decChars
  rw [if_neg (by omega)]
  simp only [List.length_map, List.length_reverse]
  rw [Nat.digits_def' (by norm_num) (by omega)]
  have h2 : n / 10 ≠ 0 := by omega
  have h3 : Nat.digits 10 (n / 10) ≠ [] := Nat.digits_ne_nil_iff_ne_zero.mpr h2
  have h4 : 0 < (Nat.digits 10 (n / 10)).length := List.length_pos.mpr h3
  simp only [List.length_cons]
  omega

lemma decChars_head (n : Nat) (h : n ≠ 0) :
    ∃ d, d < 10 ∧ d ≠ 0 ∧ (decChars n).head? = some (Nat.digitChar d) := by
  have hne : Nat.digits 10 n ≠ [] := Nat.digits_ne_nil_iff_ne_zero.mpr h
  refine ⟨(Nat.digits 10 n).getLast hne, ?_, ?_, ?_⟩
  · exact Nat.digits_lt_base (by norm_num) (List.getLast_mem hne)
  · exact Nat.getLast_digit_ne_zero 10 h
  · unfold decChars
    rw [if_neg h, List.head?_map, List.head?_reverse, List.getLast?_eq_getLast _ hne]
    rfl

lemma map_digitChar_inj :
    ∀ (l1 l2 : List Nat), (∀ x ∈ l1, x < 10) → (∀ x ∈ l2, x < 10) →
      l1.map Nat.digitChar = l2.map Nat.digitChar → l1 = l2 := by
  intro l1
  induction l1 with
  | nil =>
    intro l2 _ _ h
    cases l2 with
    | nil => rfl
    | cons y ys => exact absurd h (by simp)
  | cons x xs ih =>
    intro l2 h1 h2 h
    cases l2 with
    | nil => exact absurd h (by simp)
    | cons y ys =>
      simp only [List.map_cons, List.cons.injEq] at h
      have hx := h1 x (by simp)
      have hy := h2 y (by simp)
      rw [digitChar_inj x hx y hy h.1,
        ih ys (fun z hz => h1 z (by simp [hz])) (fun z hz => h2 z (by simp [hz])) h.2]

lemma decChars_inj (a b : Nat) (h : decChars a = decChars b) : a = b := by
  by_cases ha : a = 0 <;> by_cases hb : b = 0
  · omega
  · exfalso
    obtain ⟨d, hd10, hd0, hhead⟩ := decChars_head b hb
    have h0 : decChars a = ['0'] := by subst ha; rfl
    rw [h0] at h
    have : some '0' = some (Nat.digitChar d) := by rw [← hhead, ← h]; rfl
    simp only [Option.some.injEq] at this
    exact hd0 ((digitChar_eq_zero_iff d hd10).mp this.symm)
  · exfalso
    obtain ⟨d, hd10, hd0, hhead⟩ := decChars_head a ha
    have h0 : decChars b = ['0'] := by subst hb; rfl
    rw [h0] at h
    have : some '0' = some (Nat.digitChar d) := by rw [← hhead, h]; rfl
    simp only [Option.some.injEq] at this
    exact hd0 ((digitChar_eq_zero_iff d hd10).mp this.symm)
  · unfold decChars at h
    rw [if_neg ha, if_neg hb] at h
    have hd : (Nat.digits 10 a).reverse = (Nat.digits 10 b).reverse :=
      map_digitChar_inj _ _
        (fun x hx => Nat.digits_lt_base (by norm_num) (List.mem_reverse.mp hx))
        (fun x hx => Nat.digits_lt_base (by norm_num) (List.mem_reverse.mp hx)) h
    have hd2 : Nat.digits 10 a = Nat.digits 10 b := by
      have := congrArg List.reverse hd
      simpa using this
    have := congrArg (Nat.ofDigits 10) hd2
    rwa [Nat.ofDigits_digits, Nat.ofDigits_digits] at this

lemma pad2_all_digit (n : Nat) : ∀ c ∈ pad2 n, c.isDigit = true := by
  intro c hc
  unfold pad2 at hc
  split_ifs at hc with h
  · rcases List.mem_cons.mp hc with rfl | hc
    · decide
    · exact decChars_all_digit n c hc
  · exact decChars_all_digit n c hc

lemma pad2_length (n : Nat) : 2 ≤ (pad2 n).length := by
  unfold pad2
  split_ifs with h
  · rw [decChars_lt_ten n h]
    simp
  · calc 2 ≤ (decChars n).length := decChars_length_ge_two n (by omega)
      _ = (decChars n).length := rfl

lemma pad2_inj (a b : Nat) (h : pad2 a = pad2 b) : a = b := by
  unfold pad2 at h
  split_ifs at h with ha hb hb
  · rw [decChars_lt_ten a ha, decChars_lt_ten b hb] at h
    simp only [List.cons.injEq] at h
    exact digitChar_inj a ha b hb h.2.1
  · exfalso
    obtain ⟨d, hd10, hd0, hhead⟩ := decChars_head b (by omega)
    have : ('0' :: decChars a).head? = (decChars b).head? := by rw [h]
    rw [hhead] at this
    simp only [List.head?_cons, Option.some.injEq] at this
    exact hd0 ((digitChar_eq_zero_iff d hd10).mp this.symm)
  · exfalso
    obtain ⟨d, hd10, hd0, hhead⟩ := decChars_head a (by omega)
    have : ('0' :: decChars b).head? = (decChars a).head? := by rw [h]
    rw [hhead] at this
    simp only [List.head?_cons, Option.some.injEq] at this
    exact hd0 ((digitChar_eq_zero_iff d hd10).mp this.symm)
  · exact decChars_inj a b h

lemma takeWhile_digits_append (ds r : List Char)
    (hds : ∀ c ∈ ds, c.isDigit = true) :
    (ds ++ '(' :: r).takeWhile (fun c => c.isDigit) = ds := by
  induction ds with
  | nil =>
    have hparen : (('(' : Char).isDigit) = false := by decide
    simp [List.takeWhile_cons, hparen]
  | cons x xs ih =>
    have hx := hds x (by simp)
    simp [List.takeWhile_cons, hx, ih (fun c hc => hds c (by simp [hc]))]

lemma aliasString_counter_ne (c c' : Nat) (r r' : String) (h : c ≠ c') :
    aliasString c r ≠ aliasString c' r' := by
  intro heq
  apply h
  have hd := congrArg String.data heq
  simp only [aliasString, List.append_assoc, List.cons_append, List.nil_append,
    List.cons.injEq, true_and] at hd
  have h3 := congrArg (List.takeWhile (fun ch => ch.isDigit)) hd
  rw [takeWhile_digits_append _ _ (pad2_all_digit c),
    takeWhile_digits_append _ _ (pad2_all_digit c')] at h3
  exact pad2_inj c c' h3

/-- Claim C9: `generate_alias` returns the formatted string
`Alias_NN(ref_id)` and increments the monotonic counter; the result matches
the shape of the regex `Alias_[0-9]{2,}\(.+\)` whenever the referenced id
is non-empty; calls at different counter values return distinct strings;
and a collision between a generated alias (or any id) and an id already in
the table makes `instruction_map_insert` fail fatally, so ids present in a
successfully built table never collide. -/
theorem generate_alias_spec (counter counter' : Nat) (ref ref' : String)
    (h : ref.data ≠ []) :
    instruction_map_generate_alias counter ref = (aliasString counter ref, counter + 1) ∧
    matchesAliasRegex (aliasString counter ref) ∧
    (counter ≠ counter' → aliasString counter ref ≠ aliasString counter' ref') ∧
    (∀ (m m' : InstructionMap) (i : Instruction),
      instruction_map_insert m i = some m' → ∀ j ∈ m, j.id ≠ i.id) := by
  refine ⟨rfl,
    ⟨pad2 counter, ref.data, rfl, pad2_length counter, pad2_all_digit counter, h⟩,
    fun hne => aliasString_counter_ne _ _ _ _ hne, ?_⟩
  intro m m' i hins j hj
  unfold instruction_map_insert at hins
  cases hg : instruction_map_get m i.id with
  | some x => rw [hg] at hins; exact absurd hins (by simp)
  | none =>
    unfold instruction_map_get at hg
    have := List.find?_eq_none.mp hg j hj
    simpa using this

/-- Claim C9 witness: the theorem applied at counter values 0 and 1 with
the non-empty referenced id `"k"`. -/
theorem generate_alias_spec_witness :
    ("k".data ≠ []) ∧
    (instruction_map_generate_alias 0 "k" = (aliasString 0 "k", 0 + 1) ∧
      matchesAliasRegex (aliasString 0 "k") ∧
      (0 ≠ 1 → aliasString 0 "k" ≠ aliasString 1 "k") ∧
      (∀ (m m' : InstructionMap) (i : Instruction),
        instruction_map_insert m i = some m' → ∀ j ∈ m, j.id ≠ i.id)) :=
  ⟨by decide, generate_alias_spec 0 1 "k" "k" (by decide)⟩

/-! ## Runtime-preparation lemmas for claim C6 -/

lemma find_parent_none_iff (imap : InstructionMap) (ids : List String) (d : Nat)
    (hres : ∀ id ∈ ids, (instruction_map_get imap id).isSome) :
    (find_parent imap ids d = some none ↔
      ∀ id ∈ ids, ∀ j, instruction_map_get imap id = some j → d ≤ j.indent_count) ∧
    (find_parent imap ids d).isSome := by
  induction ids with
  | nil => simp [find_parent]
  | cons a rest ih =>
    have ha := hres a (by simp)
    obtain ⟨ja, hja⟩ := Option.isSome_iff_exists.mp ha
    have ihh := ih (fun id hid => hres id (by simp [hid]))
    have hstep : find_parent imap (a :: rest) d =
        if ja.indent_count < d then some (some a) else find_parent imap rest d := by
      simp only [find_parent, hja]
    by_cases hlt : ja.indent_count < d
    · rw [hstep, if_pos hlt]
      refine ⟨⟨fun h => absurd h (by simp), fun hall => ?_⟩, by simp⟩
      have := hall a (by simp) ja hja
      omega
    · rw [hstep, if_neg hlt]
      refine ⟨?_, ihh.2⟩
      rw [ihh.1]
      constructor
      · intro h id hid j hj
        rcases List.mem_cons.mp hid with rfl | hid
        · rw [hja] at hj
          injection hj with e
          subst e
          omega
        · exact h id hid j hj
      · intro hall id hid j hj
        exact hall id (by simp [hid]) j hj

lemma lookup_of_view :
    ∀ (m l : List Instruction),
      m.map instructionView = l.map instructionView →
      (l.map (fun i => i.id)).Nodup →
      ∀ x ∈ l, ∃ j, instruction_map_get m x.id = some j ∧
        instructionView j = instructionView x := by
  intro m
  induction m with
  | nil =>
    intro l hview _ x hx
    cases l with
    | nil => exact absurd hx (by simp)
    | cons y l' => exact absurd hview (by simp)
  | cons b m' ih =>
    intro l hview hnd x hx
    cases l with
    | nil => exact absurd hview (by simp)
    | cons y l' =>
      simp only [List.map_cons, List.cons.injEq] at hview
      obtain ⟨hby, hrest⟩ := hview
      have hbid : b.id = y.id := congrArg (fun t => t.1) hby
      simp only [List.map_cons, List.nodup_cons] at hnd
      rcases List.mem_cons.mp hx with rfl | hx
      · refine ⟨b, ?_, by rw [hby]⟩
        unfold instruction_map_get
        apply List.find?_cons_of_pos
        simp [hbid]
      · have hxney : x.id ≠ y.id := by
          intro he
          exact hnd.1 (he ▸ List.mem_map_of_mem (fun i => i.id) hx)
        obtain ⟨j, hj1, hj2⟩ := ih l' hrest hnd.2 x hx
        refine ⟨j, ?_, hj2⟩
        unfold instruction_map_get at hj1 ⊢
        rw [List.find?_cons_of_neg _ (by simp [hbid]; exact fun he => hxney he.symm)]
        exact hj1

lemma view_update (m : InstructionMap) (pid s : String) :
    (instruction_map_update m pid
        (fun p => instruction_add_sub_instruction p s)).map instructionView =
      m.map instructionView := by
  unfold instruction_map_update
  rw [List.map_map]
  apply List.map_congr_left
  intro i _
  by_cases h : i.id = pid <;>
    simp [h, instruction_add_sub_instruction, instructionView]

lemma runtime_prepare_go :
    ∀ (rest : List Instruction) (prev : List Instruction) (st st' : RuntimeState),
      st.all_instructions = prev.map (fun i => i.id) →
      st.imap.map instructionView = prev.map instructionView →
      (prev.map (fun i => i.id)).Nodup →
      List.foldlM runtime_prepare_step st rest = some st' →
      st'.execution_list = st.execution_list ++ execution_spec prev rest := by
  intro rest
  induction rest with
  | nil =>
    intro prev st st' _ _ _ h
    simp only [List.foldlM_nil] at h
    cases h
    simp [execution_spec]
  | cons i rest ih =>
    intro prev st st' h1 h2 h3 h
    rw [List.foldlM_cons] at h
    cases hs : runtime_prepare_step st i with
    | none => rw [hs] at h; simp at h
    | some st1 =>
      rw [hs] at h
      replace h : List.foldlM runtime_prepare_step st1 rest = some st' := h
      by_cases hN : i.type = .NONE
      · have hst1 : st = st1 := by
          simp only [runtime_prepare_step, if_pos hN] at hs
          exact Option.some.inj hs
        rw [← hst1] at h
        simp only [execution_spec, if_pos hN]
        exact ih prev st st' h1 h2 h3 h
      · cases hins : instruction_map_insert st.imap i with
        | none => simp [runtime_prepare_step, if_neg hN, hins] at hs
        | some imap1 =>
          simp only [runtime_prepare_step, if_neg hN, hins] at hs
          have hgetnone : instruction_map_get st.imap i.id = none := by
            unfold instruction_map_insert at hins
            cases hg : instruction_map_get st.imap i.id with
            | none => rfl
            | some x => rw [hg] at hins; simp at hins
          have himap1 : imap1 = st.imap ++ [i] := by
            unfold instruction_map_insert at hins
            rw [hgetnone] at hins
            simpa using hins.symm
          have hids : st.imap.map (fun p => p.id) = prev.map (fun p => p.id) := by
            have hcong :=
              congrArg (List.map (fun t : String × Nat × InstructionType => t.1)) h2
            simpa [List.map_map, instructionView, Function.comp] using hcong
          have hfresh : i.id ∉ prev.map (fun p => p.id) := by
            intro hmem
            rw [← hids] at hmem
            obtain ⟨j, hjm, hje⟩ := List.mem_map.mp hmem
            have hnone := List.find?_eq_none.mp
              (by unfold instruction_map_get at hgetnone; exact hgetnone) j hjm
            simp [hje] at hnone
          have hview1 : imap1.map instructionView = (prev ++ [i]).map instructionView := by
            rw [himap1]
            simp [h2]
          have hnd1 : ((prev ++ [i]).map (fun p => p.id)).Nodup := by
            rw [List.map_append]
            simp [List.nodup_append, h3, hfresh]
          have hall1ids : st.all_instructions ++ [i.id] =
              (prev ++ [i]).map (fun p => p.id) := by
            rw [h1]
            simp
          have hlook := lookup_of_view imap1 (prev ++ [i]) hview1 hnd1
          have hres : ∀ id ∈ (st.all_instructions ++ [i.id]).reverse,
              (instruction_map_get imap1 id).isSome := by
            intro id hid
            rw [List.mem_reverse, hall1ids] at hid
            obtain ⟨x, hx, rfl⟩ := List.mem_map.mp hid
            obtain ⟨j, hj, _⟩ := hlook x hx
            simp [hj]
          have hchar := find_parent_none_iff imap1
            (st.all_instructions ++ [i.id]).reverse i.indent_count hres
          have hlen1 : ¬((st.all_instructions ++ [i.id]).length = 0) := by simp
          -- The continuation shared by the "`try_handle` returned `false`"
          -- branches: the line is kept exactly when it is transactional.
          have hfalse_branch :
              (if instruction_type_is_transaction i.type = true then
                  some (⟨imap1, st.all_instructions ++ [i.id],
                    st.execution_list ++ [i.id]⟩ : RuntimeState)
                else
                  some ⟨imap1, st.all_instructions ++ [i.id], st.execution_list⟩) =
                some st1 →
              (¬(0 < i.indent_count ∧
                prev.any (fun p => p.indent_count < i.indent_count) = true)) →
              st'.execution_list = st.execution_list ++ execution_spec prev (i :: rest) := by
            intro hs2 hnosub
            simp only [execution_spec, if_neg hN]
            by_cases htr : instruction_type_is_transaction i.type = true
            · rw [if_pos htr] at hs2
              have hst1 := Option.some.inj hs2
              rw [← hst1] at h
              have hrec := ih (prev ++ [i])
                ⟨imap1, st.all_instructions ++ [i.id], st.execution_list ++ [i.id]⟩
                st' hall1ids hview1 hnd1 h
              rw [hrec, if_pos ⟨htr, hnosub⟩]
              simp
            · rw [if_neg htr] at hs2
              have hst1 := Option.some.inj hs2
              rw [← hst1] at h
              have hrec := ih (prev ++ [i])
                ⟨imap1, st.all_instructions ++ [i.id], st.execution_list⟩
                st' hall1ids hview1 hnd1 h
              rw [hrec, if_neg (fun hc => htr hc.1)]
              simp
          by_cases hind : i.indent_count = 0
          · have hth : try_handle_sub_instruction imap1 i
                (st.all_instructions ++ [i.id]) = some (false, imap1) := by
              simp [try_handle_sub_instruction, hind]
            simp only [hth] at hs
            exact hfalse_branch hs (by omega)
          · by_cases hany : prev.any (fun p => p.indent_count < i.indent_count) = true
            · -- a strictly shallower previous instruction exists: the line is
              -- attached to a parent and skipped.
              have hnotnone : find_parent imap1
                  (st.all_instructions ++ [i.id]).reverse i.indent_count ≠ some none := by
                intro hsome
                have hall := hchar.1.mp hsome
                obtain ⟨p, hp, hplt⟩ := List.any_eq_true.mp hany
                rw [decide_eq_true_eq] at hplt
                obtain ⟨j, hj, hjv⟩ := hlook p (by simp [hp])
                have hge := hall p.id
                  (by rw [List.mem_reverse, hall1ids]
                      exact List.mem_map_of_mem _ (by simp [hp])) j hj
                have hind_eq : j.indent_count = p.indent_count :=
                  congrArg (fun t => t.2.1) hjv
                omega
              obtain ⟨res, hres2⟩ := Option.isSome_iff_exists.mp hchar.2
              cases res with
              | none => exact absurd hres2 hnotnone
              | some pid =>
                have hth : try_handle_sub_instruction imap1 i
                    (st.all_instructions ++ [i.id]) =
                    some (true, instruction_map_update imap1 pid
                      (fun p => instruction_add_sub_instruction p i.id)) := by
                  unfold try_handle_sub_instruction
                  rw [if_neg hind, if_neg hlen1, hres2]
                simp only [hth] at hs
                have hst1 := Option.some.inj hs
                rw [← hst1] at h
                have hview2 : (instruction_map_update imap1 pid
                    (fun p => instruction_add_sub_instruction p i.id)).map
                      instructionView = (prev ++ [i]).map instructionView := by
                  rw [view_update]
                  exact hview1
                have hrec := ih (prev ++ [i])
                  ⟨instruction_map_update imap1 pid
                    (fun p => instruction_add_sub_instruction p i.id),
                    st.all_instructions ++ [i.id], st.execution_list⟩
                  st' hall1ids hview2 hnd1 h
                simp only [execution_spec, if_neg hN]
                rw [hrec, if_neg (fun hc => hc.2 ⟨by omega, hany⟩)]
                simp
            · -- no strictly shallower previous instruction: the orphan falls
              -- through to the top-level handling.
              have hnone : find_parent imap1
                  (st.all_instructions ++ [i.id]).reverse i.indent_count = some none := by
                apply hchar.1.mpr
                intro id hid j hj
                rw [List.mem_reverse, hall1ids] at hid
                obtain ⟨x, hx, rfl⟩ := List.mem_map.mp hid
                obtain ⟨j', hj', hjv⟩ := hlook x hx
                rw [hj'] at hj
                injection hj with e
                subst e
                have hind_eq : j'.indent_count = x.indent_count :=
                  congrArg (fun t => t.2.1) hjv
                rcases List.mem_append.mp hx with hxp | hxi
                · have hnlt : ¬(x.indent_count < i.indent_count) := by
                    intro hlt
                    exact hany (List.any_eq_true.mpr ⟨x, hxp, by simpa using hlt⟩)
                  omega
                · simp at hxi
                  subst hxi
                  omega
              have hth : try_handle_sub_instruction imap1 i
                  (st.all_instructions ++ [i.id]) = some (false, imap1) := by
                unfold try_handle_sub_instruction
                rw [if_neg hind, if_neg hlen1, hnone]
              simp only [hth] at hs
              exact hfalse_branch hs (fun hc => hany hc.2)

/-- Claim C6 (amended): for every successfully prepared script, the
execution list contains exactly the ids of the transactional instructions
that are not attached to a parent — those at indent 0 together with
indented orphans having no preceding strictly-shallower instruction — in
source order; instructions of non-transactional kind never appear. -/
theorem execution_list_characterization (lines : List Instruction) (st : RuntimeState)
    (h : runtime_prepare lines = some st) :
    st.execution_list = execution_spec [] lines := by
  have hgo := runtime_prepare_go lines [] ⟨[], [], []⟩ st rfl rfl (by simp) h
  simpa using hgo

/-- Claim C6 witness: the theorem applied to the one-line orphan script. -/
theorem execution_list_characterization_witness :
    (⟨[orphanInstr], ["p"], ["p"]⟩ : RuntimeState).execution_list =
      execution_spec [] [orphanInstr] :=
  execution_list_characterization [orphanInstr] ⟨[orphanInstr], ["p"], ["p"]⟩ (by decide)

end BeanScript
